import Mathlib

/-!
Shallow embedding of the NetBox source excerpt under verification: the
circuit views (circuits/views.py) and the user API serializers
(users/api/serializers.py).

Database rows become Lean structures, the relevant tables become lists of
rows, and each view/serializer method becomes a function on that state.
Fallible operations (a save that would violate the database's unique
constraint, a serializer validation that raises) return Except values.
-/

namespace NetBox

/-- A circuit termination row (model circuits.CircuitTermination).  The
column term_side is 'A' or 'Z' in a consistent store; the swap view
transiently writes the placeholder '_'.  The remaining fields carry the
other columns that the excerpted code never touches. -/
@[ext]
structure CircuitTermination where
  pk : Nat
  circuit_id : Nat
  term_side : Char
  site_id : Option Nat
  provider_network_id : Option Nat
  port_speed : Option Nat
  description : String
deriving DecidableEq

/-- A circuit row (model circuits.Circuit).  termination_a_id and
termination_z_id are the cached foreign keys to the A-side and Z-side
termination rows; the remaining fields are columns the swap never touches. -/
@[ext]
structure Circuit where
  pk : Nat
  cid : String
  provider_id : Nat
  type_id : Nat
  status : String
  description : String
  termination_a_id : Option Nat
  termination_z_id : Option Nat
deriving DecidableEq

/-- The database state relevant to the circuit views: the circuits table and
the circuit terminations table. -/
@[ext]
structure DB where
  circuits : List Circuit
  terminations : List CircuitTermination
deriving DecidableEq

/-- Django Circuit.objects.filter(pk=k).first(), and the lookup behind
get_object_or_404(self.queryset, pk=pk). -/
def findCircuit (db : DB) (k : Nat) : Option Circuit :=
  db.circuits.find? fun c => decide (c.pk = k)

/-- Django CircuitTermination.objects.filter(pk=i).first() where i is an
optional id; filter(pk=None) matches nothing. -/
def findTerminationById (db : DB) (i : Option Nat) : Option CircuitTermination :=
  db.terminations.find? fun t => decide (some t.pk = i)

/-- Lookup of a termination row by primary key. -/
def findTermByPk (db : DB) (k : Nat) : Option CircuitTermination :=
  db.terminations.find? fun t => decide (t.pk = k)

/-- Django CircuitTermination.save(): write the object's row back (update the
row carrying the object's pk; insert when absent), enforcing the
(circuit, term_side) unique constraint the way the database does: the save
raises IntegrityError when a different row of the same circuit already
carries the same term_side. -/
def saveTermination (db : DB) (t : CircuitTermination) : Except Unit DB :=
  if ∃ u ∈ db.terminations, u.pk ≠ t.pk ∧ u.circuit_id = t.circuit_id ∧ u.term_side = t.term_side then
    .error ()
  else if ∃ u ∈ db.terminations, u.pk = t.pk then
    .ok { db with terminations := db.terminations.map fun u => if u.pk = t.pk then t else u }
  else
    .ok { db with terminations := db.terminations ++ [t] }

/-- Django Circuit.save(): write the circuit row back; no constraint is in
play for the fields the excerpt modifies. -/
def saveCircuit (db : DB) (c : Circuit) : DB :=
  if ∃ u ∈ db.circuits, u.pk = c.pk then
    { db with circuits := db.circuits.map fun u => if u.pk = c.pk then c else u }
  else
    { db with circuits := db.circuits ++ [c] }

/-- Outcome of the POST handler of CircuitSwapTerminations: the 404 of
get_object_or_404, the re-render on an invalid confirmation form, the
success redirect, or an uncaught exception (IntegrityError escaping the
transaction, or the AttributeError of the final else branch when both
termination lookups returned None). -/
inductive PostOutcome where
  | notFound
  | renderForm
  | redirected
  | crashed
deriving DecidableEq

/-- Outcome of the GET handler of CircuitSwapTerminations. -/
inductive GetOutcome where
  | notFound
  | errorRedirect
  | renderPage
deriving DecidableEq

/-- The body of the `with transaction.atomic()` block of
CircuitSwapTerminations.post for the case in which both terminations exist:
save termination_a with the placeholder side '_', save termination_z with
side 'A', save termination_a with side 'Z', then refresh the circuit from
the database and save it with its termination references exchanged.  Any
error aborts the rest of the block. -/
def swapBothChain (db : DB) (cpk : Nat) (ta tz : CircuitTermination) : Except Unit DB :=
  match saveTermination db { ta with term_side := '_' } with
  | .error e => .error e
  | .ok db1 =>
    match saveTermination db1 { tz with term_side := 'A' } with
    | .error e => .error e
    | .ok db2 =>
      match saveTermination db2 { ta with term_side := 'Z' } with
      | .error e => .error e
      | .ok db3 =>
        match findCircuit db3 cpk with
        | none => .error ()
        | some c =>
          .ok (saveCircuit db3
            { c with termination_a_id := some tz.pk, termination_z_id := some ta.pk })

namespace CircuitSwapTerminations

/-- CircuitSwapTerminations.post.  The circuit is looked up by pk (404 when
absent), the confirmation form is validated, the two terminations are
re-fetched by the circuit's cached ids, and then: both present — the
three-step relabeling runs inside transaction.atomic (an error rolls the
state back and escapes); exactly one present — that termination is relabeled
to the opposite side and the circuit's vacated reference is cleared; none
present — the final else branch dereferences None and crashes. -/
def post (db : DB) (cpk : Nat) (formValid : Bool) : DB × PostOutcome :=
  match findCircuit db cpk with
  | none => (db, .notFound)
  | some circuit =>
    match formValid with
    | false => (db, .renderForm)
    | true =>
      match findTerminationById db circuit.termination_a_id,
            findTerminationById db circuit.termination_z_id with
      | some ta, some tz =>
        match swapBothChain db cpk ta tz with
        | .ok db4 => (db4, .redirected)
        | .error _ => (db, .crashed)
      | some ta, none =>
        match saveTermination db { ta with term_side := 'Z' } with
        | .error _ => (db, .crashed)
        | .ok db1 =>
          match findCircuit db1 cpk with
          | none => (db1, .crashed)
          | some c => (saveCircuit db1 { c with termination_a_id := none }, .redirected)
      | none, some tz =>
        match saveTermination db { tz with term_side := 'A' } with
        | .error _ => (db, .crashed)
        | .ok db1 =>
          match findCircuit db1 cpk with
          | none => (db1, .crashed)
          | some c => (saveCircuit db1 { c with termination_z_id := none }, .redirected)
      | none, none => (db, .crashed)

/-- CircuitSwapTerminations.get: look the circuit up by pk (404 when absent);
when the circuit has neither termination reference, report an error and
redirect; otherwise render the confirmation page.  No state is written. -/
def get (db : DB) (cpk : Nat) : DB × GetOutcome :=
  match findCircuit db cpk with
  | none => (db, .notFound)
  | some circuit =>
    if circuit.termination_a_id = none ∧ circuit.termination_z_id = none then
      (db, .errorRedirect)
    else
      (db, .renderPage)

end CircuitSwapTerminations

/-- The uniqueness constraint on the terminations table: two rows of the
same circuit with the same term_side are the same row. -/
def uniqSides (l : List CircuitTermination) : Prop :=
  ∀ t ∈ l, ∀ u ∈ l, t.circuit_id = u.circuit_id → t.term_side = u.term_side → t.pk = u.pk

instance (l : List CircuitTermination) : Decidable (uniqSides l) := by
  unfold uniqSides; infer_instance

/-- Every termination row of the store carries side 'A' or side 'Z' (the
only two choices the application writes outside the transient placeholder). -/
def sidesAZ (l : List CircuitTermination) : Prop :=
  ∀ t ∈ l, t.term_side = 'A' ∨ t.term_side = 'Z'

instance (l : List CircuitTermination) : Decidable (sidesAZ l) := by
  unfold sidesAZ; infer_instance

/-- The per-row effect of a completed two-termination swap on the
terminations table: the row of termination_a now carries side 'Z', the row of
termination_z now carries side 'A', every other row is untouched. -/
def swappedTerm (ta tz u : CircuitTermination) : CircuitTermination :=
  if u.pk = ta.pk then { ta with term_side := 'Z' }
  else if u.pk = tz.pk then { tz with term_side := 'A' }
  else u

/-- The whole-state effect of a completed two-termination swap: the
terminations table is relabeled rowwise and the circuit row has its two
termination references exchanged. -/
def swappedDB (db : DB) (circuit : Circuit) (ta tz : CircuitTermination) : DB :=
  { circuits := db.circuits.map fun u =>
      if u.pk = circuit.pk then
        { circuit with termination_a_id := some tz.pk, termination_z_id := some ta.pk }
      else u,
    terminations := db.terminations.map (swappedTerm ta tz) }

/-- A termination row differs from its counterpart in at most the term_side
column: the primary key, foreign keys and every other column agree. -/
def sameButTermSide (t u : CircuitTermination) : Prop :=
  u.pk = t.pk ∧ u.circuit_id = t.circuit_id ∧ u.site_id = t.site_id ∧
  u.provider_network_id = t.provider_network_id ∧ u.port_speed = t.port_speed ∧
  u.description = t.description

/-- A circuit row differs from its counterpart in at most the
termination_a_id / termination_z_id references: every other column agrees. -/
def sameButTermRefs (c u : Circuit) : Prop :=
  u.pk = c.pk ∧ u.cid = c.cid ∧ u.provider_id = c.provider_id ∧
  u.type_id = c.type_id ∧ u.status = c.status ∧ u.description = c.description

/-!  The user API serializers. -/

/-- A user row (the Django auth user), with the permission strings granted
to it; has_perm checks membership. -/
structure User where
  pk : Nat
  username : String
  perms : List String
deriving DecidableEq

/-- Django user.has_perm(p). -/
def User.has_perm (u : User) (p : String) : Bool :=
  u.perms.contains p

/-- The exceptions the excerpted serializer code raises: the rest-framework
PermissionDenied and AuthenticationFailed, the KeyError of dict.pop on a
missing key, and the generic field validation failure. -/
inductive ApiError where
  | permissionDenied
  | authenticationFailed
  | keyError
  | validationError
deriving DecidableEq

/-- The validated data handed to TokenSerializer.validate: the optional
token user together with the remaining writable columns. -/
structure TokenData where
  user : Option User
  key : String
  write_enabled : Bool
  description : String
deriving DecidableEq

namespace TokenSerializer

/-- TokenSerializer.validate.  The parent validator
(ValidatedModelSerializer.validate, outside the excerpt) is passed in as a
function.  When the data names a token user different from the requesting
user and the requesting user lacks users.grant_token, PermissionDenied is
raised; otherwise the data is passed unchanged to the parent validator. -/
def validate (superValidate : TokenData → Except ApiError TokenData)
    (request_user : User) (data : TokenData) : Except ApiError TokenData :=
  match data.user with
  | some token_user =>
    if token_user ≠ request_user ∧ request_user.has_perm "users.grant_token" = false then
      .error .permissionDenied
    else
      superValidate data
  | none => superValidate data

end TokenSerializer

/-- A value in a serializer data dictionary: a string field, a resolved user,
or a resolved circuit (the bulk-import parent object). -/
inductive FieldValue where
  | str : String → FieldValue
  | user : User → FieldValue
  | circuit : Circuit → FieldValue
deriving DecidableEq

/-- A Python dict of serializer data, as an ordered association list. -/
abbrev DataDict : Type := List (String × FieldValue)

/-- Python d[k] (None when absent). -/
def dictGet (d : DataDict) (k : String) : Option FieldValue :=
  match d.find? fun kv => decide (kv.1 = k) with
  | some kv => some kv.2
  | none => none

/-- Python d.pop(k): the value at k together with the dict without k; None
models the KeyError on a missing key. -/
def dictPop (d : DataDict) (k : String) : Option (FieldValue × DataDict) :=
  match dictGet d k with
  | none => none
  | some v => some (v, d.filter fun kv => decide (kv.1 ≠ k))

/-- Python d[k] = v (also dict.update with a single key): overwrite in place
when the key is present, append otherwise. -/
def dictSet (d : DataDict) (k : String) (v : FieldValue) : DataDict :=
  if ∃ kv ∈ d, kv.1 = k then
    d.map fun kv => if kv.1 = k then (k, v) else kv
  else
    d ++ [(k, v)]

namespace TokenProvisionSerializer

/-- TokenProvisionSerializer.validate.  Django authenticate is passed in as
a function from the supplied username and password to the authenticated user
(None on failure).  The username and password entries are popped from the
data; authentication failure raises AuthenticationFailed; on success the
authenticated user is injected under the user key and the data returned.
The fall-through arms model the KeyError of dict.pop on a missing key and a
non-string credential, neither of which field validation lets through. -/
def validate (authenticate : String → String → Option User)
    (data : DataDict) : Except ApiError DataDict :=
  match dictPop data "username" with
  | some (.str username, d1) =>
    match dictPop d1 "password" with
    | some (.str password, d2) =>
      match authenticate username password with
      | none => .error .authenticationFailed
      | some user => .ok (dictSet d2 "user" (.user user))
    | some _ => .error .validationError
    | none => .error .keyError
  | some _ => .error .validationError
  | none => .error .keyError

end TokenProvisionSerializer

namespace CircuitBulkImportView

/-- CircuitBulkImportView.prep_related_object_data: set the circuit key of
the related-object data to the parent circuit and return the data. -/
def prep_related_object_data (parent : Circuit) (data : DataDict) : DataDict :=
  dictSet data "circuit" (.circuit parent)

end CircuitBulkImportView

/-!  The token key field. -/

namespace Token

/-- A hexadecimal digit character for the low four bits of n. -/
def hexDigit (n : Nat) : Char :=
  if n % 16 < 10 then Char.ofNat (48 + n % 16) else Char.ofNat (87 + n % 16)

/-- Modelled from the spec: Token.generate_key is defined on the Token model
in users.models, outside the excerpted source; per the specified token
validation behaviour it returns a fresh random key of exactly 40 characters,
namely 20 random bytes rendered in hexadecimal (two hex digits per byte). -/
def generate_key (randomBytes : List Nat) : String :=
  String.mk (randomBytes.flatMap fun b => [hexDigit (b / 16), hexDigit b])

end Token

/-- Python str.strip(): drop whitespace from both ends of the string. -/
def pyStrip (s : String) : String :=
  String.mk (((s.data.dropWhile fun c => c.isWhitespace).reverse.dropWhile
    fun c => c.isWhitespace).reverse)

namespace CharField

/-- Modelled from the spec: the rest-framework CharField machinery applied to
the key field declared in the excerpt with min_length=40, max_length=40,
allow_blank=True.  A value that is blank after whitespace stripping is
accepted as the empty string when allow_blank is set (bypassing the length
validators) and rejected otherwise; any other value is stripped and must
then satisfy min_length and max_length. -/
def run_validation (min_length max_length : Nat) (allow_blank : Bool)
    (input : String) : Except ApiError String :=
  if pyStrip input = "" then
    if allow_blank then .ok "" else .error .validationError
  else if (pyStrip input).length < min_length then .error .validationError
  else if max_length < (pyStrip input).length then .error .validationError
  else .ok (pyStrip input)

end CharField

namespace TokenSerializer

/-- TokenSerializer.to_internal_value restricted to the key column: when the
input data lacks a key entry a generated key is filled in, and the resulting
key value then passes through the key field declared with min_length=40,
max_length=40, allow_blank=True. -/
def to_internal_value_key (randomBytes : List Nat) (keyInput : Option String) :
    Except ApiError String :=
  match keyInput with
  | none => CharField.run_validation 40 40 true (Token.generate_key randomBytes)
  | some s => CharField.run_validation 40 40 true s

end TokenSerializer

/-!  Generic helper lemmas about list lookup, update and filtering. -/

section ListHelpers

variable {α : Type} {κ : Type} [DecidableEq κ]

/-- Looking a key up in a keyed rowwise update: when the update function
preserves keys and maps every row carrying the key k to the fixed row v,
the lookup of k in the updated table yields v. -/
theorem find?_key_map (key : α → κ) (f : α → α) (l : List α) (k : κ) (v : α)
    (hfix : ∀ u, key (f u) = key u) (hval : ∀ u, key u = k → f u = v)
    (hex : ∃ u ∈ l, key u = k) :
    (l.map f).find? (fun u => decide (key u = k)) = some v := by
  induction l with
  | nil => simp at hex
  | cons h t ih =>
    by_cases hh : key h = k
    · rw [List.map_cons, List.find?_cons_of_pos _ (by simp [hfix, hh]), hval h hh]
    · rw [List.map_cons, List.find?_cons_of_neg _ (by simp [hfix, hh])]
      refine ih ?_
      rcases hex with ⟨u, hu, hk⟩
      rcases List.mem_cons.mp hu with rfl | hut
      · exact absurd hk hh
      · exact ⟨u, hut, hk⟩

/-- A rowwise update that fixes every row satisfying the search predicate
and preserves the predicate leaves find? unchanged. -/
theorem find?_map_fixed (p : α → Bool) (f : α → α) (l : List α)
    (hp : ∀ u, p (f u) = p u) (hfval : ∀ u, p u = true → f u = u) :
    (l.map f).find? p = l.find? p := by
  induction l with
  | nil => rfl
  | cons h t ih =>
    by_cases hh : p h = true
    · rw [List.map_cons, List.find?_cons_of_pos _ (by rw [hp]; exact hh),
        List.find?_cons_of_pos _ hh, hfval h hh]
    · rw [List.map_cons, List.find?_cons_of_neg _ (by rw [hp]; exact hh),
        List.find?_cons_of_neg _ hh, ih]

/-- Filtering by a predicate that holds on every row the search predicate
accepts leaves find? unchanged. -/
theorem find?_filter_of_imp (p q : α → Bool) (l : List α)
    (hpq : ∀ u, p u = true → q u = true) :
    (l.filter q).find? p = l.find? p := by
  induction l with
  | nil => rfl
  | cons h t ih =>
    by_cases hq : q h = true
    · rw [List.filter_cons_of_pos hq]
      by_cases hp : p h = true
      · rw [List.find?_cons_of_pos _ hp, List.find?_cons_of_pos _ hp]
      · rw [List.find?_cons_of_neg _ hp, List.find?_cons_of_neg _ hp, ih]
    · have hp : ¬ p h = true := fun hph => hq (hpq h hph)
      rw [List.filter_cons_of_neg (by simpa using hq), List.find?_cons_of_neg _ hp, ih]

/-- Filtering away every row the search predicate accepts makes find? fail. -/
theorem find?_filter_none (p q : α → Bool) (l : List α)
    (hpq : ∀ u, p u = true → q u = false) :
    (l.filter q).find? p = none := by
  rw [List.find?_eq_none]
  intro x hx hpx
  have hmem := List.mem_filter.mp hx
  rw [hpq x hpx] at hmem
  exact Bool.false_ne_true hmem.2

/-- Forall₂ between a list and its rowwise image. -/
theorem forall₂_self_map (R : α → α → Prop) (f : α → α) (l : List α)
    (h : ∀ u ∈ l, R u (f u)) : List.Forall₂ R l (l.map f) :=
  List.forall₂_map_right_iff.mpr (List.forall₂_same.mpr h)

end ListHelpers

/-!  Behaviour of the save operations. -/

/-- A termination save succeeds and replaces the row carrying the object's
pk when no other row of the same circuit carries the same side and some row
carries the pk. -/
theorem saveTermination_eq_ok (db : DB) (t : CircuitTermination)
    (hno : ∀ u ∈ db.terminations, u.pk ≠ t.pk →
      ¬(u.circuit_id = t.circuit_id ∧ u.term_side = t.term_side))
    (hmem : ∃ u ∈ db.terminations, u.pk = t.pk) :
    saveTermination db t =
      .ok { db with terminations := db.terminations.map fun u => if u.pk = t.pk then t else u } := by
  unfold saveTermination
  rw [if_neg, if_pos hmem]
  rintro ⟨u, hu, hne, hc, hs⟩
  exact hno u hu hne ⟨hc, hs⟩

/-- A circuit save replaces the row carrying the object's pk when some row
carries it. -/
theorem saveCircuit_eq_replace (db : DB) (c : Circuit)
    (hmem : ∃ u ∈ db.circuits, u.pk = c.pk) :
    saveCircuit db c =
      { db with circuits := db.circuits.map fun u => if u.pk = c.pk then c else u } := by
  unfold saveCircuit
  rw [if_pos hmem]

/-!  The three-step relabeling chain, step by step. -/

section SwapSteps

variable (db : DB) (cpk : Nat) (circuit : Circuit) (ta tz : CircuitTermination)

/-- Step one: saving termination_a with the placeholder '_' succeeds, because
no row carries side '_'. -/
theorem swap_step1 (hmemA : ta ∈ db.terminations) (hAZ : sidesAZ db.terminations) :
    saveTermination db { ta with term_side := '_' } =
      .ok { db with terminations := db.terminations.map fun u =>
              if u.pk = ta.pk then { ta with term_side := '_' } else u } := by
  refine saveTermination_eq_ok db _ ?_ ⟨ta, hmemA, rfl⟩
  intro u hu _ hcs
  have hs2 : u.term_side = '_' := hcs.2
  rcases hAZ u hu with h | h <;> exact absurd (hs2.symm.trans h) (by decide)

/-- Step two: saving termination_z with side 'A' succeeds on the state of
step one, because the only 'A' row of the circuit was termination_a, which
now carries '_'. -/
theorem swap_step2 (hmemA : ta ∈ db.terminations) (hmemZ : tz ∈ db.terminations)
    (hpk : ta.pk ≠ tz.pk)
    (hsA : ta.term_side = 'A')
    (hcA : ta.circuit_id = cpk) (hcZ : tz.circuit_id = cpk)
    (huniq : uniqSides db.terminations) :
    saveTermination
      { db with terminations := db.terminations.map fun u =>
          if u.pk = ta.pk then { ta with term_side := '_' } else u }
      { tz with term_side := 'A' } =
      .ok { db with terminations :=
        (db.terminations.map fun u =>
          if u.pk = ta.pk then { ta with term_side := '_' } else u).map fun u =>
          if u.pk = tz.pk then { tz with term_side := 'A' } else u } := by
  refine saveTermination_eq_ok _ _ ?_ ?_
  · intro u hu hne hcs
    have hc2 : u.circuit_id = tz.circuit_id := hcs.1
    have hs2 : u.term_side = 'A' := hcs.2
    have hne2 : u.pk ≠ tz.pk := hne
    rcases List.mem_map.mp hu with ⟨v, hv, rfl⟩
    by_cases hvk : v.pk = ta.pk
    · rw [if_pos hvk] at hs2
      have hx : ('_' : Char) = 'A' := hs2
      exact absurd hx (by decide)
    · rw [if_neg hvk] at hc2 hs2
      refine hvk (huniq v hv ta hmemA ?_ ?_)
      · rw [hc2, hcZ, hcA]
      · rw [hs2, hsA]
  · refine ⟨tz, List.mem_map.mpr ⟨tz, hmemZ, ?_⟩, rfl⟩
    rw [if_neg (fun h => hpk h.symm)]

/-- Step three: saving termination_a with side 'Z' succeeds on the state of
step two, because the only 'Z' row of the circuit was termination_z, which
now carries 'A'. -/
theorem swap_step3 (hmemA : ta ∈ db.terminations) (hmemZ : tz ∈ db.terminations)
    (hpk : ta.pk ≠ tz.pk)
    (hsZ : tz.term_side = 'Z')
    (hcA : ta.circuit_id = cpk) (hcZ : tz.circuit_id = cpk)
    (huniq : uniqSides db.terminations) :
    saveTermination
      { db with terminations :=
        (db.terminations.map fun u =>
          if u.pk = ta.pk then { ta with term_side := '_' } else u).map fun u =>
          if u.pk = tz.pk then { tz with term_side := 'A' } else u }
      { ta with term_side := 'Z' } =
      .ok { db with terminations :=
        ((db.terminations.map fun u =>
          if u.pk = ta.pk then { ta with term_side := '_' } else u).map fun u =>
          if u.pk = tz.pk then { tz with term_side := 'A' } else u).map fun u =>
          if u.pk = ta.pk then { ta with term_side := 'Z' } else u } := by
  refine saveTermination_eq_ok _ _ ?_ ?_
  · intro u hu hne hcs
    have hc2 : u.circuit_id = ta.circuit_id := hcs.1
    have hs2 : u.term_side = 'Z' := hcs.2
    have hne2 : u.pk ≠ ta.pk := hne
    rcases List.mem_map.mp hu with ⟨v, hv, rfl⟩
    rcases List.mem_map.mp hv with ⟨w, hw, rfl⟩
    by_cases hwa : w.pk = ta.pk
    · rw [if_pos hwa] at hs2 hne2 hc2
      by_cases hz : ({ ta with term_side := '_' } : CircuitTermination).pk = tz.pk
      · exact absurd (hz : ta.pk = tz.pk) hpk
      · rw [if_neg hz] at hs2
        have hx : ('_' : Char) = 'Z' := hs2
        exact absurd hx (by decide)
    · rw [if_neg hwa] at hs2 hne2 hc2
      by_cases hz : w.pk = tz.pk
      · rw [if_pos hz] at hs2
        have hx : ('A' : Char) = 'Z' := hs2
        exact absurd hx (by decide)
      · rw [if_neg hz] at hs2 hne2 hc2
        refine hz (huniq w hw tz hmemZ ?_ ?_)
        · rw [hc2, hcA, hcZ]
        · rw [hs2, hsZ]
  · refine ⟨{ ta with term_side := '_' },
      List.mem_map.mpr ⟨{ ta with term_side := '_' },
        List.mem_map.mpr ⟨ta, hmemA, by rw [if_pos rfl]⟩, ?_⟩, rfl⟩
    rw [if_neg (hpk : ({ ta with term_side := '_' } : CircuitTermination).pk ≠ tz.pk)]

/-- The whole transaction body: under the store invariants, all three
termination saves succeed, the circuit is found again on refresh, and the
final state is exactly the swapped state. -/
theorem swapBothChain_eq
    (hcirc : findCircuit db cpk = some circuit)
    (hmemA : ta ∈ db.terminations) (hmemZ : tz ∈ db.terminations)
    (hpk : ta.pk ≠ tz.pk)
    (hsA : ta.term_side = 'A') (hsZ : tz.term_side = 'Z')
    (hcA : ta.circuit_id = cpk) (hcZ : tz.circuit_id = cpk)
    (huniq : uniqSides db.terminations) (hAZ : sidesAZ db.terminations) :
    swapBothChain db cpk ta tz = .ok (swappedDB db circuit ta tz) := by
  have hcpk : circuit.pk = cpk := by
    have := List.find?_some hcirc
    simpa using this
  have hcmem : circuit ∈ db.circuits := List.mem_of_find?_eq_some hcirc
  have h1 := swap_step1 db ta hmemA hAZ
  have h2 := swap_step2 db cpk ta tz hmemA hmemZ hpk hsA hcA hcZ huniq
  have h3 := swap_step3 db cpk ta tz hmemA hmemZ hpk hsZ hcA hcZ huniq
  have hcirc3 : findCircuit
      { db with terminations :=
        ((db.terminations.map fun u =>
          if u.pk = ta.pk then { ta with term_side := '_' } else u).map fun u =>
          if u.pk = tz.pk then { tz with term_side := 'A' } else u).map fun u =>
          if u.pk = ta.pk then { ta with term_side := 'Z' } else u }
      cpk = some circuit := hcirc
  unfold swapBothChain
  rw [h1]
  simp only []
  rw [h2]
  simp only []
  rw [h3]
  simp only []
  rw [hcirc3]
  simp only []
  rw [saveCircuit_eq_replace
    { db with terminations :=
      ((db.terminations.map fun u =>
        if u.pk = ta.pk then { ta with term_side := '_' } else u).map fun u =>
        if u.pk = tz.pk then { tz with term_side := 'A' } else u).map fun u =>
        if u.pk = ta.pk then { ta with term_side := 'Z' } else u }
    { circuit with termination_a_id := some tz.pk, termination_z_id := some ta.pk }
    ⟨circuit, hcmem, rfl⟩]
  unfold swappedDB
  refine congrArg Except.ok (DB.ext ?_ ?_)
  · rfl
  · show ((db.terminations.map _).map _).map _ = db.terminations.map _
    rw [List.map_map, List.map_map]
    refine List.map_congr_left fun u _ => ?_
    unfold swappedTerm
    simp only [Function.comp]
    by_cases hA : u.pk = ta.pk
    · rw [if_pos hA, if_pos hA,
        if_neg (fun h => hpk (h : ({ ta with term_side := '_' } : CircuitTermination).pk = tz.pk)),
        if_pos (rfl : ({ ta with term_side := '_' } : CircuitTermination).pk = ta.pk)]
    · rw [if_neg hA, if_neg hA]
      by_cases hZ : u.pk = tz.pk
      · rw [if_pos hZ,
          if_neg (fun h => hpk ((h : ({ tz with term_side := 'A' } : CircuitTermination).pk = ta.pk)).symm)]
      · rw [if_neg hZ, if_neg hA]

end SwapSteps

/-!  Evaluation lemmas for lookups and the swapped state. -/

theorem findCircuit_pk (db : DB) (k : Nat) (c : Circuit)
    (h : findCircuit db k = some c) : c.pk = k := by
  have hp := List.find?_some h
  simpa using hp

theorem findCircuit_mem (db : DB) (k : Nat) (c : Circuit)
    (h : findCircuit db k = some c) : c ∈ db.circuits :=
  List.mem_of_find?_eq_some h

theorem findTerminationById_pred (db : DB) (i : Option Nat) (t : CircuitTermination)
    (h : findTerminationById db i = some t) : i = some t.pk := by
  have hp := List.find?_some h
  simp only [decide_eq_true_eq] at hp
  exact hp.symm

theorem findTerminationById_mem (db : DB) (i : Option Nat) (t : CircuitTermination)
    (h : findTerminationById db i = some t) : t ∈ db.terminations :=
  List.mem_of_find?_eq_some h

theorem swappedTerm_pk (ta tz u : CircuitTermination) :
    (swappedTerm ta tz u).pk = u.pk := by
  unfold swappedTerm
  by_cases hA : u.pk = ta.pk
  · rw [if_pos hA]; exact hA.symm
  · rw [if_neg hA]
    by_cases hZ : u.pk = tz.pk
    · rw [if_pos hZ]; exact hZ.symm
    · rw [if_neg hZ]

theorem swappedTerm_eval_a (ta tz u : CircuitTermination) (h : u.pk = ta.pk) :
    swappedTerm ta tz u = { ta with term_side := 'Z' } := by
  unfold swappedTerm
  rw [if_pos h]

theorem swappedTerm_eval_z (ta tz u : CircuitTermination) (hpk : ta.pk ≠ tz.pk)
    (h : u.pk = tz.pk) :
    swappedTerm ta tz u = { tz with term_side := 'A' } := by
  unfold swappedTerm
  rw [if_neg (fun hh => hpk (hh.symm.trans h)), if_pos h]

theorem swappedTerm_eval_id (ta tz u : CircuitTermination)
    (hA : u.pk ≠ ta.pk) (hZ : u.pk ≠ tz.pk) :
    swappedTerm ta tz u = u := by
  unfold swappedTerm
  rw [if_neg hA, if_neg hZ]

theorem termSide_update_self (t : CircuitTermination) (s : Char) (h : t.term_side = s) :
    ({ t with term_side := s } : CircuitTermination) = t := by
  cases t
  simp_all

theorem termRefs_update_self (c : Circuit) (a z : Option Nat)
    (ha : c.termination_a_id = a) (hz : c.termination_z_id = z) :
    ({ c with termination_a_id := a, termination_z_id := z } : Circuit) = c := by
  cases c
  simp_all

/-- After step one of the relabeling, the uniqueness constraint still holds:
the placeholder row is the only row carrying side '_'. -/
theorem uniqSides_step1 (l : List CircuitTermination) (ta : CircuitTermination)
    (huniq : uniqSides l) (hAZ : sidesAZ l) :
    uniqSides (l.map fun u => if u.pk = ta.pk then { ta with term_side := '_' } else u) := by
  intro t ht u hu hc hs
  rcases List.mem_map.mp ht with ⟨v, hv, rfl⟩
  rcases List.mem_map.mp hu with ⟨w, hw, rfl⟩
  by_cases hva : v.pk = ta.pk <;> by_cases hwa : w.pk = ta.pk
  · rw [if_pos hva, if_pos hwa]
  · rw [if_pos hva, if_neg hwa] at hs
    have hs2 : ('_' : Char) = w.term_side := hs
    rcases hAZ w hw with h | h <;> exact absurd (hs2.trans h) (by decide)
  · rw [if_neg hva, if_pos hwa] at hs
    have hs2 : v.term_side = '_' := hs
    rcases hAZ v hv with h | h <;> exact absurd (h.symm.trans hs2) (by decide)
  · rw [if_neg hva, if_neg hwa] at hc hs ⊢
    exact huniq v hv w hw hc hs

/-- After step two of the relabeling, the uniqueness constraint still holds:
termination_z is now the only 'A' row of the circuit because termination_a
carries the placeholder. -/
theorem uniqSides_step2 (l : List CircuitTermination) (cpk : Nat)
    (ta tz : CircuitTermination)
    (hmemA : ta ∈ l) (hpk : ta.pk ≠ tz.pk)
    (hsA : ta.term_side = 'A') (hcA : ta.circuit_id = cpk) (hcZ : tz.circuit_id = cpk)
    (huniq : uniqSides l) (hAZ : sidesAZ l) :
    uniqSides ((l.map fun u => if u.pk = ta.pk then { ta with term_side := '_' } else u).map
      fun u => if u.pk = tz.pk then { tz with term_side := 'A' } else u) := by
  have hneg : ¬ ({ ta with term_side := '_' } : CircuitTermination).pk = tz.pk := hpk
  intro t ht u hu hc hs
  rcases List.mem_map.mp ht with ⟨v1, hv1, rfl⟩
  rcases List.mem_map.mp hv1 with ⟨v, hv, rfl⟩
  rcases List.mem_map.mp hu with ⟨w1, hw1, rfl⟩
  rcases List.mem_map.mp hw1 with ⟨w, hw, rfl⟩
  by_cases hva : v.pk = ta.pk
  · rw [if_pos hva, if_neg hneg] at hc hs ⊢
    by_cases hwa : w.pk = ta.pk
    · rw [if_pos hwa, if_neg hneg]
    · rw [if_neg hwa] at hc hs ⊢
      by_cases hwz : w.pk = tz.pk
      · rw [if_pos hwz] at hs
        have hs2 : ('_' : Char) = 'A' := hs
        exact absurd hs2 (by decide)
      · rw [if_neg hwz] at hs
        have hs2 : ('_' : Char) = w.term_side := hs
        rcases hAZ w hw with h | h <;> exact absurd (hs2.trans h) (by decide)
  · rw [if_neg hva] at hc hs ⊢
    by_cases hvz : v.pk = tz.pk
    · rw [if_pos hvz] at hc hs ⊢
      by_cases hwa : w.pk = ta.pk
      · rw [if_pos hwa, if_neg hneg] at hs
        have hs2 : ('A' : Char) = '_' := hs
        exact absurd hs2 (by decide)
      · rw [if_neg hwa] at hc hs ⊢
        by_cases hwz : w.pk = tz.pk
        · rw [if_pos hwz]
        · rw [if_neg hwz] at hc hs ⊢
          have hc2 : tz.circuit_id = w.circuit_id := hc
          have hs2 : ('A' : Char) = w.term_side := hs
          refine absurd (huniq w hw ta hmemA ?_ ?_) hwa
          · rw [← hc2, hcZ, hcA]
          · rw [← hs2, hsA]
    · rw [if_neg hvz] at hc hs ⊢
      by_cases hwa : w.pk = ta.pk
      · rw [if_pos hwa, if_neg hneg] at hs
        have hs2 : v.term_side = '_' := hs
        rcases hAZ v hv with h | h <;> exact absurd (h.symm.trans hs2) (by decide)
      · rw [if_neg hwa] at hc hs ⊢
        by_cases hwz : w.pk = tz.pk
        · rw [if_pos hwz] at hc hs
          have hc2 : v.circuit_id = tz.circuit_id := hc
          have hs2 : v.term_side = 'A' := hs
          refine absurd (huniq v hv ta hmemA ?_ ?_) hva
          · rw [hc2, hcZ, hcA]
          · rw [hs2, hsA]
        · rw [if_neg hwz] at hc hs ⊢
          exact huniq v hv w hw hc hs

/-- The three nested rowwise updates of the relabeling chain collapse into
the single swapped relabeling. -/
theorem stage3_collapse (l : List CircuitTermination) (ta tz : CircuitTermination)
    (hpk : ta.pk ≠ tz.pk) :
    ((l.map fun u => if u.pk = ta.pk then { ta with term_side := '_' } else u).map fun u =>
        if u.pk = tz.pk then { tz with term_side := 'A' } else u).map
      (fun u => if u.pk = ta.pk then { ta with term_side := 'Z' } else u) =
      l.map (swappedTerm ta tz) := by
  rw [List.map_map, List.map_map]
  refine List.map_congr_left fun u _ => ?_
  unfold swappedTerm
  simp only [Function.comp]
  by_cases hA : u.pk = ta.pk
  · rw [if_pos hA, if_pos hA,
      if_neg (fun h => hpk (h : ({ ta with term_side := '_' } : CircuitTermination).pk = tz.pk)),
      if_pos (rfl : ({ ta with term_side := '_' } : CircuitTermination).pk = ta.pk)]
  · rw [if_neg hA, if_neg hA]
    by_cases hZ : u.pk = tz.pk
    · rw [if_pos hZ,
        if_neg (fun h => hpk ((h : ({ tz with term_side := 'A' } : CircuitTermination).pk = ta.pk)).symm)]
    · rw [if_neg hZ, if_neg hA]

/-- The swapped state still satisfies the uniqueness constraint. -/
theorem uniqSides_swapped (l : List CircuitTermination) (cpk : Nat)
    (ta tz : CircuitTermination)
    (hmemA : ta ∈ l) (hmemZ : tz ∈ l) (hpk : ta.pk ≠ tz.pk)
    (hsA : ta.term_side = 'A') (hsZ : tz.term_side = 'Z')
    (hcA : ta.circuit_id = cpk) (hcZ : tz.circuit_id = cpk)
    (huniq : uniqSides l) :
    uniqSides (l.map (swappedTerm ta tz)) := by
  intro t ht u hu hc hs
  rcases List.mem_map.mp ht with ⟨v, hv, rfl⟩
  rcases List.mem_map.mp hu with ⟨w, hw, rfl⟩
  rw [swappedTerm_pk, swappedTerm_pk]
  by_cases hva : v.pk = ta.pk
  · rw [swappedTerm_eval_a ta tz v hva] at hc hs
    by_cases hwa : w.pk = ta.pk
    · rw [hva, hwa]
    · by_cases hwz : w.pk = tz.pk
      · rw [swappedTerm_eval_z ta tz w hpk hwz] at hs
        have hs2 : ('Z' : Char) = 'A' := hs
        exact absurd hs2 (by decide)
      · rw [swappedTerm_eval_id ta tz w hwa hwz] at hc hs
        have hc2 : ta.circuit_id = w.circuit_id := hc
        have hs2 : ('Z' : Char) = w.term_side := hs
        refine absurd (huniq w hw tz hmemZ ?_ ?_) hwz
        · rw [← hc2, hcA, hcZ]
        · rw [← hs2, hsZ]
  · by_cases hvz : v.pk = tz.pk
    · rw [swappedTerm_eval_z ta tz v hpk hvz] at hc hs
      by_cases hwa : w.pk = ta.pk
      · rw [swappedTerm_eval_a ta tz w hwa] at hs
        have hs2 : ('A' : Char) = 'Z' := hs
        exact absurd hs2 (by decide)
      · by_cases hwz : w.pk = tz.pk
        · rw [hvz, hwz]
        · rw [swappedTerm_eval_id ta tz w hwa hwz] at hc hs
          have hc2 : tz.circuit_id = w.circuit_id := hc
          have hs2 : ('A' : Char) = w.term_side := hs
          refine absurd (huniq w hw ta hmemA ?_ ?_) hwa
          · rw [← hc2, hcZ, hcA]
          · rw [← hs2, hsA]
    · rw [swappedTerm_eval_id ta tz v hva hvz] at hc hs
      by_cases hwa : w.pk = ta.pk
      · rw [swappedTerm_eval_a ta tz w hwa] at hc hs
        have hc2 : v.circuit_id = ta.circuit_id := hc
        have hs2 : v.term_side = 'Z' := hs
        refine absurd (huniq v hv tz hmemZ ?_ ?_) hvz
        · rw [hc2, hcA, hcZ]
        · rw [hs2, hsZ]
      · by_cases hwz : w.pk = tz.pk
        · rw [swappedTerm_eval_z ta tz w hpk hwz] at hc hs
          have hc2 : v.circuit_id = tz.circuit_id := hc
          have hs2 : v.term_side = 'A' := hs
          refine absurd (huniq v hv ta hmemA ?_ ?_) hva
          · rw [hc2, hcZ, hcA]
          · rw [hs2, hsA]
        · rw [swappedTerm_eval_id ta tz w hwa hwz] at hc hs
          exact huniq v hv w hw hc hs

/-- The swapped state still carries only sides 'A' and 'Z'. -/
theorem sidesAZ_swapped (l : List CircuitTermination) (ta tz : CircuitTermination)
    (hpk : ta.pk ≠ tz.pk) (hAZ : sidesAZ l) :
    sidesAZ (l.map (swappedTerm ta tz)) := by
  intro t ht
  rcases List.mem_map.mp ht with ⟨v, hv, rfl⟩
  by_cases hva : v.pk = ta.pk
  · rw [swappedTerm_eval_a ta tz v hva]
    right; rfl
  · by_cases hvz : v.pk = tz.pk
    · rw [swappedTerm_eval_z ta tz v hpk hvz]
      left; rfl
    · rw [swappedTerm_eval_id ta tz v hva hvz]
      exact hAZ v hv

/-- The success path of the POST handler when both terminations exist: the
state becomes exactly the swapped state and the handler redirects. -/
theorem post_both_eq (db : DB) (cpk : Nat) (circuit : Circuit) (ta tz : CircuitTermination)
    (hcirc : findCircuit db cpk = some circuit)
    (hfa : findTerminationById db circuit.termination_a_id = some ta)
    (hfz : findTerminationById db circuit.termination_z_id = some tz)
    (hpk : ta.pk ≠ tz.pk)
    (hsA : ta.term_side = 'A') (hsZ : tz.term_side = 'Z')
    (hcA : ta.circuit_id = cpk) (hcZ : tz.circuit_id = cpk)
    (huniq : uniqSides db.terminations) (hAZ : sidesAZ db.terminations) :
    CircuitSwapTerminations.post db cpk true = (swappedDB db circuit ta tz, .redirected) := by
  have hchain := swapBothChain_eq db cpk circuit ta tz hcirc
    (findTerminationById_mem db _ ta hfa) (findTerminationById_mem db _ tz hfz)
    hpk hsA hsZ hcA hcZ huniq hAZ
  unfold CircuitSwapTerminations.post
  rw [hcirc]
  simp only []
  rw [hfa, hfz]
  simp only []
  rw [hchain]

/-!  Concrete store used to witness the theorems about the swap view. -/

/-- A concrete circuit row with both termination references set. -/
def wCircuit : Circuit :=
  { pk := 1, cid := "CID-1", provider_id := 7, type_id := 3, status := "active",
    description := "core ring", termination_a_id := some 10, termination_z_id := some 20 }

/-- A concrete A-side termination row. -/
def wTa : CircuitTermination :=
  { pk := 10, circuit_id := 1, term_side := 'A', site_id := some 5,
    provider_network_id := none, port_speed := some 1000, description := "a side" }

/-- A concrete Z-side termination row. -/
def wTz : CircuitTermination :=
  { pk := 20, circuit_id := 1, term_side := 'Z', site_id := none,
    provider_network_id := some 8, port_speed := none, description := "z side" }

/-- A concrete store holding one circuit with both terminations. -/
def wDB : DB :=
  { circuits := [wCircuit], terminations := [wTa, wTz] }

end NetBox

namespace NetBox

/-- C1: for every circuit whose termination_a and termination_z both exist,
a successful POST to CircuitSwapTerminations (valid confirmation form)
exchanges the two terminations: the termination previously labeled
term_side 'A' ends with term_side 'Z', the one previously labeled 'Z' ends
with 'A', and the circuit's termination_a and termination_z references are
exchanged accordingly. -/
theorem swap_post_exchanges_terminations
    (db : DB) (cpk : Nat) (circuit : Circuit) (ta tz : CircuitTermination)
    (hcirc : findCircuit db cpk = some circuit)
    (hfa : findTerminationById db circuit.termination_a_id = some ta)
    (hfz : findTerminationById db circuit.termination_z_id = some tz)
    (hpk : ta.pk ≠ tz.pk)
    (hsA : ta.term_side = 'A') (hsZ : tz.term_side = 'Z')
    (hcA : ta.circuit_id = cpk) (hcZ : tz.circuit_id = cpk)
    (huniq : uniqSides db.terminations) (hAZ : sidesAZ db.terminations) :
    (CircuitSwapTerminations.post db cpk true).2 = .redirected ∧
    findTermByPk (CircuitSwapTerminations.post db cpk true).1 ta.pk =
      some { ta with term_side := 'Z' } ∧
    findTermByPk (CircuitSwapTerminations.post db cpk true).1 tz.pk =
      some { tz with term_side := 'A' } ∧
    findCircuit (CircuitSwapTerminations.post db cpk true).1 cpk =
      some { circuit with termination_a_id := circuit.termination_z_id,
                          termination_z_id := circuit.termination_a_id } := by
  have hpost := post_both_eq db cpk circuit ta tz hcirc hfa hfz hpk hsA hsZ hcA hcZ huniq hAZ
  rw [hpost]
  have hpa : circuit.termination_a_id = some ta.pk := findTerminationById_pred db _ ta hfa
  have hpz : circuit.termination_z_id = some tz.pk := findTerminationById_pred db _ tz hfz
  have hcpk : circuit.pk = cpk := findCircuit_pk db cpk circuit hcirc
  refine ⟨rfl, ?_, ?_, ?_⟩
  · show (db.terminations.map (swappedTerm ta tz)).find? (fun t => decide (t.pk = ta.pk)) = _
    exact find?_key_map (fun t => t.pk) _ _ _ _
      (fun u => swappedTerm_pk ta tz u)
      (fun u h => swappedTerm_eval_a ta tz u h)
      ⟨ta, findTerminationById_mem db _ ta hfa, rfl⟩
  · show (db.terminations.map (swappedTerm ta tz)).find? (fun t => decide (t.pk = tz.pk)) = _
    exact find?_key_map (fun t => t.pk) _ _ _ _
      (fun u => swappedTerm_pk ta tz u)
      (fun u h => swappedTerm_eval_z ta tz u hpk h)
      ⟨tz, findTerminationById_mem db _ tz hfz, rfl⟩
  · show (db.circuits.map fun u =>
        if u.pk = circuit.pk then
          { circuit with termination_a_id := some tz.pk, termination_z_id := some ta.pk }
        else u).find? (fun c => decide (c.pk = cpk)) =
      some { circuit with termination_a_id := circuit.termination_z_id,
                          termination_z_id := circuit.termination_a_id }
    rw [hpa, hpz]
    refine find?_key_map (fun c => c.pk) _ _ _ _ ?_ ?_
      ⟨circuit, findCircuit_mem db cpk circuit hcirc, hcpk⟩
    · intro u
      by_cases h : u.pk = circuit.pk
      · rw [if_pos h]; exact h.symm
      · rw [if_neg h]
    · intro u h
      rw [if_pos (h.trans hcpk.symm)]

/-- C1 witness: the swap on the concrete store. -/
theorem swap_post_exchanges_terminations_witness :
    (CircuitSwapTerminations.post wDB 1 true).2 = .redirected ∧
    findTermByPk (CircuitSwapTerminations.post wDB 1 true).1 wTa.pk =
      some { wTa with term_side := 'Z' } ∧
    findTermByPk (CircuitSwapTerminations.post wDB 1 true).1 wTz.pk =
      some { wTz with term_side := 'A' } ∧
    findCircuit (CircuitSwapTerminations.post wDB 1 true).1 1 =
      some { wCircuit with termination_a_id := wCircuit.termination_z_id,
                           termination_z_id := wCircuit.termination_a_id } :=
  swap_post_exchanges_terminations wDB 1 wCircuit wTa wTz
    (by decide) (by decide) (by decide) (by decide) (by decide) (by decide)
    (by decide) (by decide) (by decide) (by decide)

/-- C2: when both terminations exist, the swap is performed as a three-step
relabeling: termination_a is first saved with the placeholder term_side '_',
then termination_z is saved with term_side 'A', then termination_a is saved
with term_side 'Z'; each save succeeds and after each save the
(circuit, term_side) uniqueness constraint still holds. -/
theorem swap_three_step_uniqueness
    (db : DB) (cpk : Nat) (circuit : Circuit) (ta tz : CircuitTermination)
    ( _hcirc : findCircuit db cpk = some circuit)
    (hfa : findTerminationById db circuit.termination_a_id = some ta)
    (hfz : findTerminationById db circuit.termination_z_id = some tz)
    (hpk : ta.pk ≠ tz.pk)
    (hsA : ta.term_side = 'A') (hsZ : tz.term_side = 'Z')
    (hcA : ta.circuit_id = cpk) (hcZ : tz.circuit_id = cpk)
    (huniq : uniqSides db.terminations) (hAZ : sidesAZ db.terminations) :
    ∃ db1 db2 db3,
      saveTermination db { ta with term_side := '_' } = .ok db1 ∧
      saveTermination db1 { tz with term_side := 'A' } = .ok db2 ∧
      saveTermination db2 { ta with term_side := 'Z' } = .ok db3 ∧
      uniqSides db1.terminations ∧ uniqSides db2.terminations ∧ uniqSides db3.terminations := by
  have hmemA := findTerminationById_mem db _ ta hfa
  have hmemZ := findTerminationById_mem db _ tz hfz
  refine ⟨_, _, _, swap_step1 db ta hmemA hAZ,
    swap_step2 db cpk ta tz hmemA hmemZ hpk hsA hcA hcZ huniq,
    swap_step3 db cpk ta tz hmemA hmemZ hpk hsZ hcA hcZ huniq, ?_, ?_, ?_⟩
  · exact uniqSides_step1 db.terminations ta huniq hAZ
  · exact uniqSides_step2 db.terminations cpk ta tz hmemA hpk hsA hcA hcZ huniq hAZ
  · show uniqSides (((db.terminations.map _).map _).map _)
    rw [stage3_collapse db.terminations ta tz hpk]
    exact uniqSides_swapped db.terminations cpk ta tz hmemA hmemZ hpk hsA hsZ hcA hcZ huniq

/-- C2 witness: the three-step relabeling on the concrete store. -/
theorem swap_three_step_uniqueness_witness :
    ∃ db1 db2 db3,
      saveTermination wDB { wTa with term_side := '_' } = .ok db1 ∧
      saveTermination db1 { wTz with term_side := 'A' } = .ok db2 ∧
      saveTermination db2 { wTa with term_side := 'Z' } = .ok db3 ∧
      uniqSides db1.terminations ∧ uniqSides db2.terminations ∧ uniqSides db3.terminations :=
  swap_three_step_uniqueness wDB 1 wCircuit wTa wTz
    (by decide) (by decide) (by decide) (by decide) (by decide) (by decide)
    (by decide) (by decide) (by decide) (by decide)

/-- C3: the two-termination swap is atomic: when both terminations are
found, either the whole transaction body succeeds and the handler redirects
with its final state, or the body raises and the handler leaves the store in
its pre-swap state. -/
theorem swap_post_atomic
    (db : DB) (cpk : Nat) (circuit : Circuit) (ta tz : CircuitTermination)
    (hcirc : findCircuit db cpk = some circuit)
    (hfa : findTerminationById db circuit.termination_a_id = some ta)
    (hfz : findTerminationById db circuit.termination_z_id = some tz) :
    (∃ db4, swapBothChain db cpk ta tz = .ok db4 ∧
      CircuitSwapTerminations.post db cpk true = (db4, .redirected)) ∨
    (swapBothChain db cpk ta tz = .error () ∧
      CircuitSwapTerminations.post db cpk true = (db, .crashed)) := by
  cases hE : swapBothChain db cpk ta tz with
  | error e =>
    cases e
    right
    refine ⟨rfl, ?_⟩
    unfold CircuitSwapTerminations.post
    rw [hcirc]
    simp only []
    rw [hfa, hfz]
    simp only []
    rw [hE]
  | ok db4 =>
    left
    refine ⟨db4, rfl, ?_⟩
    unfold CircuitSwapTerminations.post
    rw [hcirc]
    simp only []
    rw [hfa, hfz]
    simp only []
    rw [hE]

/-- C3 witness: atomicity on the concrete store. -/
theorem swap_post_atomic_witness :
    (∃ db4, swapBothChain wDB 1 wTa wTz = .ok db4 ∧
      CircuitSwapTerminations.post wDB 1 true = (db4, .redirected)) ∨
    (swapBothChain wDB 1 wTa wTz = .error () ∧
      CircuitSwapTerminations.post wDB 1 true = (wDB, .crashed)) :=
  swap_post_atomic wDB 1 wCircuit wTa wTz (by decide) (by decide) (by decide)

/-- C7: the swap leaves all other fields unchanged: after a successful swap
every termination row agrees with its pre-swap row on every column except
possibly term_side, every circuit row agrees with its pre-swap row on every
column except possibly the two termination references, and every termination
row other than the two swapped ones is entirely untouched. -/
theorem swap_post_frame
    (db : DB) (cpk : Nat) (circuit : Circuit) (ta tz : CircuitTermination)
    (hcirc : findCircuit db cpk = some circuit)
    (hfa : findTerminationById db circuit.termination_a_id = some ta)
    (hfz : findTerminationById db circuit.termination_z_id = some tz)
    (hpk : ta.pk ≠ tz.pk)
    (hsA : ta.term_side = 'A') (hsZ : tz.term_side = 'Z')
    (hcA : ta.circuit_id = cpk) (hcZ : tz.circuit_id = cpk)
    (huniq : uniqSides db.terminations) (hAZ : sidesAZ db.terminations)
    (hnodupT : (db.terminations.map fun t => t.pk).Nodup)
    (hnodupC : (db.circuits.map fun c => c.pk).Nodup) :
    ∃ dbFin, CircuitSwapTerminations.post db cpk true = (dbFin, .redirected) ∧
      List.Forall₂ sameButTermSide db.terminations dbFin.terminations ∧
      List.Forall₂ sameButTermRefs db.circuits dbFin.circuits ∧
      (∀ t ∈ db.terminations, t.pk ≠ ta.pk → t.pk ≠ tz.pk → t ∈ dbFin.terminations) := by
  have hpost := post_both_eq db cpk circuit ta tz hcirc hfa hfz hpk hsA hsZ hcA hcZ huniq hAZ
  have hmemA := findTerminationById_mem db _ ta hfa
  have hmemZ := findTerminationById_mem db _ tz hfz
  have hcmem := findCircuit_mem db cpk circuit hcirc
  refine ⟨swappedDB db circuit ta tz, hpost, ?_, ?_, ?_⟩
  · show List.Forall₂ sameButTermSide db.terminations (db.terminations.map (swappedTerm ta tz))
    refine forall₂_self_map _ _ _ fun u hu => ?_
    by_cases hva : u.pk = ta.pk
    · have he : u = ta := List.inj_on_of_nodup_map hnodupT hu hmemA hva
      rw [he, swappedTerm_eval_a ta tz ta rfl]
      exact ⟨rfl, rfl, rfl, rfl, rfl, rfl⟩
    · by_cases hvz : u.pk = tz.pk
      · have he : u = tz := List.inj_on_of_nodup_map hnodupT hu hmemZ hvz
        rw [he, swappedTerm_eval_z ta tz tz hpk rfl]
        exact ⟨rfl, rfl, rfl, rfl, rfl, rfl⟩
      · rw [swappedTerm_eval_id ta tz u hva hvz]
        exact ⟨rfl, rfl, rfl, rfl, rfl, rfl⟩
  · show List.Forall₂ sameButTermRefs db.circuits
      (db.circuits.map fun u =>
        if u.pk = circuit.pk then
          { circuit with termination_a_id := some tz.pk, termination_z_id := some ta.pk }
        else u)
    refine forall₂_self_map _ _ _ fun u hu => ?_
    by_cases huc : u.pk = circuit.pk
    · have he : u = circuit := List.inj_on_of_nodup_map hnodupC hu hcmem huc
      rw [he, if_pos rfl]
      exact ⟨rfl, rfl, rfl, rfl, rfl, rfl⟩
    · rw [if_neg huc]
      exact ⟨rfl, rfl, rfl, rfl, rfl, rfl⟩
  · intro t ht hta htz
    show t ∈ db.terminations.map (swappedTerm ta tz)
    exact List.mem_map.mpr ⟨t, ht, swappedTerm_eval_id ta tz t hta htz⟩

/-- C7 witness: the frame condition on the concrete store. -/
theorem swap_post_frame_witness :
    ∃ dbFin, CircuitSwapTerminations.post wDB 1 true = (dbFin, .redirected) ∧
      List.Forall₂ sameButTermSide wDB.terminations dbFin.terminations ∧
      List.Forall₂ sameButTermRefs wDB.circuits dbFin.circuits ∧
      (∀ t ∈ wDB.terminations, t.pk ≠ wTa.pk → t.pk ≠ wTz.pk → t ∈ dbFin.terminations) :=
  swap_post_frame wDB 1 wCircuit wTa wTz
    (by decide) (by decide) (by decide) (by decide) (by decide) (by decide)
    (by decide) (by decide) (by decide) (by decide) (by decide) (by decide)

/-- C9: the swap is an involution: for every circuit with both terminations
present, performing two successful swap POSTs in sequence restores the
original store exactly. -/
theorem swap_post_involutive
    (db : DB) (cpk : Nat) (circuit : Circuit) (ta tz : CircuitTermination)
    (hcirc : findCircuit db cpk = some circuit)
    (hfa : findTerminationById db circuit.termination_a_id = some ta)
    (hfz : findTerminationById db circuit.termination_z_id = some tz)
    (hpk : ta.pk ≠ tz.pk)
    (hsA : ta.term_side = 'A') (hsZ : tz.term_side = 'Z')
    (hcA : ta.circuit_id = cpk) (hcZ : tz.circuit_id = cpk)
    (huniq : uniqSides db.terminations) (hAZ : sidesAZ db.terminations)
    (hnodupT : (db.terminations.map fun t => t.pk).Nodup)
    (hnodupC : (db.circuits.map fun c => c.pk).Nodup) :
    (CircuitSwapTerminations.post db cpk true).2 = .redirected ∧
    CircuitSwapTerminations.post (CircuitSwapTerminations.post db cpk true).1 cpk true =
      (db, .redirected) := by
  have hpost1 := post_both_eq db cpk circuit ta tz hcirc hfa hfz hpk hsA hsZ hcA hcZ huniq hAZ
  have hcpk : circuit.pk = cpk := findCircuit_pk db cpk circuit hcirc
  have hpa : circuit.termination_a_id = some ta.pk := findTerminationById_pred db _ ta hfa
  have hpz : circuit.termination_z_id = some tz.pk := findTerminationById_pred db _ tz hfz
  have hmemA := findTerminationById_mem db _ ta hfa
  have hmemZ := findTerminationById_mem db _ tz hfz
  have hcmem := findCircuit_mem db cpk circuit hcirc
  have hpk2 : ({ tz with term_side := 'A' } : CircuitTermination).pk ≠
      ({ ta with term_side := 'Z' } : CircuitTermination).pk :=
    fun h => hpk ((h : tz.pk = ta.pk)).symm
  have hcirc2 : findCircuit (swappedDB db circuit ta tz) cpk =
      some { circuit with termination_a_id := some tz.pk, termination_z_id := some ta.pk } := by
    show (db.circuits.map fun u =>
        if u.pk = circuit.pk then
          { circuit with termination_a_id := some tz.pk, termination_z_id := some ta.pk }
        else u).find? (fun c => decide (c.pk = cpk)) = _
    refine find?_key_map (fun c => c.pk) _ _ _ _ ?_ ?_ ⟨circuit, hcmem, hcpk⟩
    · intro u
      by_cases h : u.pk = circuit.pk
      · rw [if_pos h]; exact h.symm
      · rw [if_neg h]
    · intro u h
      rw [if_pos (h.trans hcpk.symm)]
  have hfa2 : findTerminationById (swappedDB db circuit ta tz) (some tz.pk) =
      some { tz with term_side := 'A' } := by
    show (db.terminations.map (swappedTerm ta tz)).find?
      (fun t => decide (some t.pk = some tz.pk)) = _
    exact find?_key_map (fun t => (some t.pk : Option Nat)) _ _ _ _
      (fun u => congrArg some (swappedTerm_pk ta tz u))
      (fun u h => swappedTerm_eval_z ta tz u hpk (Option.some.inj h))
      ⟨tz, hmemZ, rfl⟩
  have hfz2 : findTerminationById (swappedDB db circuit ta tz) (some ta.pk) =
      some { ta with term_side := 'Z' } := by
    show (db.terminations.map (swappedTerm ta tz)).find?
      (fun t => decide (some t.pk = some ta.pk)) = _
    exact find?_key_map (fun t => (some t.pk : Option Nat)) _ _ _ _
      (fun u => congrArg some (swappedTerm_pk ta tz u))
      (fun u h => swappedTerm_eval_a ta tz u (Option.some.inj h))
      ⟨ta, hmemA, rfl⟩
  have huniq2 : uniqSides (swappedDB db circuit ta tz).terminations :=
    uniqSides_swapped db.terminations cpk ta tz hmemA hmemZ hpk hsA hsZ hcA hcZ huniq
  have hAZ2 : sidesAZ (swappedDB db circuit ta tz).terminations :=
    sidesAZ_swapped db.terminations ta tz hpk hAZ
  have hpost2 := post_both_eq (swappedDB db circuit ta tz) cpk
    { circuit with termination_a_id := some tz.pk, termination_z_id := some ta.pk }
    { tz with term_side := 'A' } { ta with term_side := 'Z' }
    hcirc2 hfa2 hfz2 hpk2 rfl rfl (hcZ : tz.circuit_id = cpk) (hcA : ta.circuit_id = cpk)
    huniq2 hAZ2
  have hfinal : swappedDB (swappedDB db circuit ta tz)
      { circuit with termination_a_id := some tz.pk, termination_z_id := some ta.pk }
      { tz with term_side := 'A' } { ta with term_side := 'Z' } = db := by
    refine DB.ext ?_ ?_
    · show (db.circuits.map _).map _ = db.circuits
      rw [List.map_map]
      refine (List.map_congr_left fun u hu => ?_).trans (List.map_id _)
      simp only [Function.comp_apply, id_eq]
      by_cases huc : u.pk = circuit.pk
      · have he : u = circuit := List.inj_on_of_nodup_map hnodupC hu hcmem huc
        rw [he, if_pos (rfl : circuit.pk = circuit.pk), if_pos (rfl : ({ circuit with termination_a_id := some tz.pk, termination_z_id := some ta.pk } : Circuit).pk = ({ circuit with termination_a_id := some tz.pk, termination_z_id := some ta.pk } : Circuit).pk)]
        exact termRefs_update_self circuit (some ta.pk) (some tz.pk) hpa hpz
      · rw [if_neg huc, if_neg (huc : ¬ u.pk = ({ circuit with termination_a_id := some tz.pk, termination_z_id := some ta.pk } : Circuit).pk)]
    · show (db.terminations.map (swappedTerm ta tz)).map
        (swappedTerm { tz with term_side := 'A' } { ta with term_side := 'Z' }) =
        db.terminations
      rw [List.map_map]
      refine (List.map_congr_left fun u hu => ?_).trans (List.map_id _)
      show swappedTerm { tz with term_side := 'A' } { ta with term_side := 'Z' }
        (swappedTerm ta tz u) = id u
      by_cases hua : u.pk = ta.pk
      · have he : u = ta := List.inj_on_of_nodup_map hnodupT hu hmemA hua
        rw [he, swappedTerm_eval_a ta tz ta rfl,
          swappedTerm_eval_z { tz with term_side := 'A' } { ta with term_side := 'Z' }
            { ta with term_side := 'Z' } hpk2 rfl]
        exact termSide_update_self ta 'A' hsA
      · by_cases huz : u.pk = tz.pk
        · have he : u = tz := List.inj_on_of_nodup_map hnodupT hu hmemZ huz
          rw [he, swappedTerm_eval_z ta tz tz hpk rfl,
            swappedTerm_eval_a { tz with term_side := 'A' } { ta with term_side := 'Z' }
              { tz with term_side := 'A' } rfl]
          exact termSide_update_self tz 'Z' hsZ
        · rw [swappedTerm_eval_id ta tz u hua huz,
            swappedTerm_eval_id { tz with term_side := 'A' } { ta with term_side := 'Z' } u
              (huz : u.pk ≠ ({ tz with term_side := 'A' } : CircuitTermination).pk)
              (hua : u.pk ≠ ({ ta with term_side := 'Z' } : CircuitTermination).pk)]
          rfl
  refine ⟨by rw [hpost1], ?_⟩
  rw [hpost1]
  show CircuitSwapTerminations.post (swappedDB db circuit ta tz) cpk true = (db, .redirected)
  rw [hpost2, hfinal]

/-- C9 witness: the double swap on the concrete store. -/
theorem swap_post_involutive_witness :
    (CircuitSwapTerminations.post wDB 1 true).2 = .redirected ∧
    CircuitSwapTerminations.post (CircuitSwapTerminations.post wDB 1 true).1 1 true =
      (wDB, .redirected) :=
  swap_post_involutive wDB 1 wCircuit wTa wTz
    (by decide) (by decide) (by decide) (by decide) (by decide) (by decide)
    (by decide) (by decide) (by decide) (by decide) (by decide) (by decide)

/-- C8: for a circuit with exactly one termination, a successful swap POST
relabels that termination to the opposite side and clears the circuit's
vacated reference; for a circuit with no terminations, the GET handler
reports an error and redirects without changing any state. -/
theorem swap_post_single_and_get_guard :
    (∀ (db : DB) (cpk : Nat) (circuit : Circuit) (ta : CircuitTermination),
      findCircuit db cpk = some circuit →
      findTerminationById db circuit.termination_a_id = some ta →
      findTerminationById db circuit.termination_z_id = none →
      ta.term_side = 'A' →
      ta.circuit_id = cpk →
      (∀ u ∈ db.terminations, u.circuit_id = cpk → u.pk = ta.pk) →
      (CircuitSwapTerminations.post db cpk true).2 = .redirected ∧
      findTermByPk (CircuitSwapTerminations.post db cpk true).1 ta.pk =
        some { ta with term_side := 'Z' } ∧
      findCircuit (CircuitSwapTerminations.post db cpk true).1 cpk =
        some { circuit with termination_a_id := none }) ∧
    (∀ (db : DB) (cpk : Nat) (circuit : Circuit) (tz : CircuitTermination),
      findCircuit db cpk = some circuit →
      findTerminationById db circuit.termination_a_id = none →
      findTerminationById db circuit.termination_z_id = some tz →
      tz.term_side = 'Z' →
      tz.circuit_id = cpk →
      (∀ u ∈ db.terminations, u.circuit_id = cpk → u.pk = tz.pk) →
      (CircuitSwapTerminations.post db cpk true).2 = .redirected ∧
      findTermByPk (CircuitSwapTerminations.post db cpk true).1 tz.pk =
        some { tz with term_side := 'A' } ∧
      findCircuit (CircuitSwapTerminations.post db cpk true).1 cpk =
        some { circuit with termination_z_id := none }) ∧
    (∀ (db : DB) (cpk : Nat) (circuit : Circuit),
      findCircuit db cpk = some circuit →
      circuit.termination_a_id = none → circuit.termination_z_id = none →
      CircuitSwapTerminations.get db cpk = (db, .errorRedirect)) := by
  refine ⟨?_, ?_, ?_⟩
  · intro db cpk circuit ta hcirc hfa hfz _hsA hcA honly
    have hmemA := findTerminationById_mem db _ ta hfa
    have hcpk := findCircuit_pk db cpk circuit hcirc
    have hcmem := findCircuit_mem db cpk circuit hcirc
    have hsave : saveTermination db { ta with term_side := 'Z' } =
        .ok { db with terminations := db.terminations.map fun u => if u.pk = ta.pk then { ta with term_side := 'Z' } else u } := by
      refine saveTermination_eq_ok db _ ?_ ⟨ta, hmemA, rfl⟩
      intro u hu hne hcs
      have hc2 : u.circuit_id = ta.circuit_id := hcs.1
      exact hne (honly u hu (hc2.trans hcA))
    have hcirc1 : findCircuit { db with terminations := db.terminations.map fun u => if u.pk = ta.pk then { ta with term_side := 'Z' } else u } cpk = some circuit := hcirc
    have hpost : CircuitSwapTerminations.post db cpk true =
        (saveCircuit { db with terminations := db.terminations.map fun u => if u.pk = ta.pk then { ta with term_side := 'Z' } else u } { circuit with termination_a_id := none }, .redirected) := by
      unfold CircuitSwapTerminations.post
      rw [hcirc]
      simp only []
      rw [hfa, hfz]
      simp only []
      rw [hsave]
      simp only []
      rw [hcirc1]
    rw [hpost, saveCircuit_eq_replace { db with terminations := db.terminations.map fun u => if u.pk = ta.pk then { ta with term_side := 'Z' } else u } { circuit with termination_a_id := none } ⟨circuit, hcmem, rfl⟩]
    refine ⟨rfl, ?_, ?_⟩
    · show (db.terminations.map fun u => if u.pk = ta.pk then { ta with term_side := 'Z' } else u).find? (fun t => decide (t.pk = ta.pk)) = some { ta with term_side := 'Z' }
      refine find?_key_map (fun t => t.pk) _ _ _ _ ?_ ?_ ⟨ta, hmemA, rfl⟩
      · intro u
        by_cases h : u.pk = ta.pk
        · rw [if_pos h]; exact h.symm
        · rw [if_neg h]
      · intro u h
        rw [if_pos h]
    · show (db.circuits.map fun u => if u.pk = ({ circuit with termination_a_id := none } : Circuit).pk then { circuit with termination_a_id := none } else u).find? (fun c => decide (c.pk = cpk)) = some { circuit with termination_a_id := none }
      refine find?_key_map (fun c => c.pk) _ _ _ _ ?_ ?_ ⟨circuit, hcmem, hcpk⟩
      · intro u
        by_cases h : u.pk = ({ circuit with termination_a_id := none } : Circuit).pk
        · rw [if_pos h]; exact h.symm
        · rw [if_neg h]
      · intro u h
        rw [if_pos ((h.trans hcpk.symm) : u.pk = ({ circuit with termination_a_id := none } : Circuit).pk)]
  · intro db cpk circuit tz hcirc hfa hfz _hsZ hcZ honly
    have hmemZ := findTerminationById_mem db _ tz hfz
    have hcpk := findCircuit_pk db cpk circuit hcirc
    have hcmem := findCircuit_mem db cpk circuit hcirc
    have hsave : saveTermination db { tz with term_side := 'A' } =
        .ok { db with terminations := db.terminations.map fun u => if u.pk = tz.pk then { tz with term_side := 'A' } else u } := by
      refine saveTermination_eq_ok db _ ?_ ⟨tz, hmemZ, rfl⟩
      intro u hu hne hcs
      have hc2 : u.circuit_id = tz.circuit_id := hcs.1
      exact hne (honly u hu (hc2.trans hcZ))
    have hcirc1 : findCircuit { db with terminations := db.terminations.map fun u => if u.pk = tz.pk then { tz with term_side := 'A' } else u } cpk = some circuit := hcirc
    have hpost : CircuitSwapTerminations.post db cpk true =
        (saveCircuit { db with terminations := db.terminations.map fun u => if u.pk = tz.pk then { tz with term_side := 'A' } else u } { circuit with termination_z_id := none }, .redirected) := by
      unfold CircuitSwapTerminations.post
      rw [hcirc]
      simp only []
      rw [hfa, hfz]
      simp only []
      rw [hsave]
      simp only []
      rw [hcirc1]
    rw [hpost, saveCircuit_eq_replace { db with terminations := db.terminations.map fun u => if u.pk = tz.pk then { tz with term_side := 'A' } else u } { circuit with termination_z_id := none } ⟨circuit, hcmem, rfl⟩]
    refine ⟨rfl, ?_, ?_⟩
    · show (db.terminations.map fun u => if u.pk = tz.pk then { tz with term_side := 'A' } else u).find? (fun t => decide (t.pk = tz.pk)) = some { tz with term_side := 'A' }
      refine find?_key_map (fun t => t.pk) _ _ _ _ ?_ ?_ ⟨tz, hmemZ, rfl⟩
      · intro u
        by_cases h : u.pk = tz.pk
        · rw [if_pos h]; exact h.symm
        · rw [if_neg h]
      · intro u h
        rw [if_pos h]
    · show (db.circuits.map fun u => if u.pk = ({ circuit with termination_z_id := none } : Circuit).pk then { circuit with termination_z_id := none } else u).find? (fun c => decide (c.pk = cpk)) = some { circuit with termination_z_id := none }
      refine find?_key_map (fun c => c.pk) _ _ _ _ ?_ ?_ ⟨circuit, hcmem, hcpk⟩
      · intro u
        by_cases h : u.pk = ({ circuit with termination_z_id := none } : Circuit).pk
        · rw [if_pos h]; exact h.symm
        · rw [if_neg h]
      · intro u h
        rw [if_pos ((h.trans hcpk.symm) : u.pk = ({ circuit with termination_z_id := none } : Circuit).pk)]
  · intro db cpk circuit hcirc ha hz
    unfold CircuitSwapTerminations.get
    rw [hcirc]
    simp only []
    rw [if_pos ⟨ha, hz⟩]

/-- A concrete circuit with only an A-side termination. -/
def wCircuitA : Circuit :=
  { pk := 2, cid := "CID-2", provider_id := 7, type_id := 3, status := "active",
    description := "spur a", termination_a_id := some 30, termination_z_id := none }

/-- The termination of wCircuitA. -/
def wTaOnly : CircuitTermination :=
  { pk := 30, circuit_id := 2, term_side := 'A', site_id := some 9,
    provider_network_id := none, port_speed := none, description := "lone a" }

/-- A concrete store with a one-termination circuit on side A. -/
def wDBa : DB := { circuits := [wCircuitA], terminations := [wTaOnly] }

/-- A concrete circuit with only a Z-side termination. -/
def wCircuitZ : Circuit :=
  { pk := 3, cid := "CID-3", provider_id := 7, type_id := 3, status := "active",
    description := "spur z", termination_a_id := none, termination_z_id := some 40 }

/-- The termination of wCircuitZ. -/
def wTzOnly : CircuitTermination :=
  { pk := 40, circuit_id := 3, term_side := 'Z', site_id := none,
    provider_network_id := some 4, port_speed := some 100, description := "lone z" }

/-- A concrete store with a one-termination circuit on side Z. -/
def wDBz : DB := { circuits := [wCircuitZ], terminations := [wTzOnly] }

/-- A concrete circuit with no terminations at all. -/
def wCircuitNone : Circuit :=
  { pk := 4, cid := "CID-4", provider_id := 7, type_id := 3, status := "planned",
    description := "empty", termination_a_id := none, termination_z_id := none }

/-- A concrete store with a termination-free circuit. -/
def wDBnone : DB := { circuits := [wCircuitNone], terminations := [] }

/-- C8 witness: the three guarded behaviours on concrete stores. -/
theorem swap_post_single_and_get_guard_witness :
    ((CircuitSwapTerminations.post wDBa 2 true).2 = .redirected ∧
      findTermByPk (CircuitSwapTerminations.post wDBa 2 true).1 wTaOnly.pk =
        some { wTaOnly with term_side := 'Z' } ∧
      findCircuit (CircuitSwapTerminations.post wDBa 2 true).1 2 =
        some { wCircuitA with termination_a_id := none }) ∧
    ((CircuitSwapTerminations.post wDBz 3 true).2 = .redirected ∧
      findTermByPk (CircuitSwapTerminations.post wDBz 3 true).1 wTzOnly.pk =
        some { wTzOnly with term_side := 'A' } ∧
      findCircuit (CircuitSwapTerminations.post wDBz 3 true).1 3 =
        some { wCircuitZ with termination_z_id := none }) ∧
    CircuitSwapTerminations.get wDBnone 4 = (wDBnone, .errorRedirect) :=
  ⟨swap_post_single_and_get_guard.1 wDBa 2 wCircuitA wTaOnly
      (by decide) (by decide) (by decide) (by decide) (by decide) (by decide),
   swap_post_single_and_get_guard.2.1 wDBz 3 wCircuitZ wTzOnly
      (by decide) (by decide) (by decide) (by decide) (by decide) (by decide),
   swap_post_single_and_get_guard.2.2 wDBnone 4 wCircuitNone
      (by decide) (by decide) (by decide)⟩

/-!  Dictionary lookup lemmas for the serializer data model. -/

/-- Looking up a key other than the filtered-away one passes through the
filter. -/
theorem dictGet_filter_ne (d : DataDict) (k k2 : String) (hne : k ≠ k2) :
    dictGet (d.filter fun kv => decide (kv.1 ≠ k2)) k = dictGet d k := by
  unfold dictGet
  rw [find?_filter_of_imp]
  intro u hp
  simp only [decide_eq_true_eq] at hp ⊢
  rw [hp]
  exact hne

/-- Looking up the filtered-away key fails. -/
theorem dictGet_filter_self (d : DataDict) (k : String) :
    dictGet (d.filter fun kv => decide (kv.1 ≠ k)) k = none := by
  have h : (d.filter fun kv => decide (kv.1 ≠ k)).find? (fun kv => decide (kv.1 = k)) = none := by
    apply find?_filter_none
    intro u hp
    simp only [decide_eq_true_eq] at hp
    simp [hp]
  unfold dictGet
  rw [h]

/-- Looking up the assigned key after a dict assignment yields the new
value. -/
theorem dictGet_dictSet_self (d : DataDict) (k : String) (v : FieldValue) :
    dictGet (dictSet d k v) k = some v := by
  unfold dictSet
  by_cases hex : ∃ kv ∈ d, kv.1 = k
  · rw [if_pos hex]
    unfold dictGet
    have h := find?_key_map (fun kv : String × FieldValue => kv.1)
      (fun kv => if kv.1 = k then (k, v) else kv) d k (k, v) ?_ ?_ hex
    · rw [h]
    · intro u
      show ((if u.1 = k then (k, v) else u) : String × FieldValue).1 = u.1
      by_cases hk : u.1 = k
      · rw [if_pos hk]; exact hk.symm
      · rw [if_neg hk]
    · intro u hk
      have hk2 : u.1 = k := hk
      show (if u.1 = k then (k, v) else u) = (k, v)
      rw [if_pos hk2]
  · rw [if_neg hex]
    unfold dictGet
    have hnone : d.find? (fun kv => decide (kv.1 = k)) = none := by
      rw [List.find?_eq_none]
      intro x hx hpx
      simp only [decide_eq_true_eq] at hpx
      exact hex ⟨x, hx, hpx⟩
    rw [List.find?_append, hnone, Option.none_or, List.find?_cons_of_pos _ (by simp)]

/-- Looking up any other key after a dict assignment is unchanged. -/
theorem dictGet_dictSet_ne (d : DataDict) (k k2 : String) (v : FieldValue) (hne : k2 ≠ k) :
    dictGet (dictSet d k v) k2 = dictGet d k2 := by
  unfold dictSet
  by_cases hex : ∃ kv ∈ d, kv.1 = k
  · rw [if_pos hex]
    unfold dictGet
    rw [find?_map_fixed]
    · intro u
      by_cases hk : u.1 = k
      · rw [if_pos hk]
        simp [hk]
      · rw [if_neg hk]
    · intro u hp
      simp only [decide_eq_true_eq] at hp
      rw [if_neg (fun h => hne (hp.symm.trans h))]
  · rw [if_neg hex]
    unfold dictGet
    rw [List.find?_append]
    have hsingle : ([(k, v)] : DataDict).find? (fun kv => decide (kv.1 = k2)) = none := by
      rw [List.find?_eq_none]
      intro x hx hpx
      simp only [List.mem_singleton] at hx
      simp only [decide_eq_true_eq, hx] at hpx
      exact hne hpx.symm
    rw [hsingle]
    cases d.find? (fun kv => decide (kv.1 = k2)) <;> rfl

/-!  Concrete users and data used to witness the serializer theorems. -/

/-- A concrete user without the grant_token permission. -/
def wUserAlice : User := { pk := 11, username := "alice", perms := [] }

/-- Another concrete user without the grant_token permission. -/
def wUserBob : User := { pk := 12, username := "bob", perms := [] }

/-- A concrete authentication backend accepting exactly alice's password. -/
def wAuth : String → String → Option User := fun u p =>
  if u = "alice" ∧ p = "hunter2" then some wUserAlice else none

/-- Concrete provisioning data with valid credentials. -/
def wProvData : DataDict :=
  [("username", .str "alice"), ("password", .str "hunter2"), ("description", .str "ci token")]

end NetBox

namespace NetBox

/-- C4: TokenSerializer.validate raises PermissionDenied exactly when the
token's user is set, differs from the requesting user, and the requesting
user lacks the users.grant_token permission; in every other case (no user
given, same user, or permission held) validation passes the data through to
the parent validator unchanged. -/
theorem TokenSerializer.validate_grant_token
    (superValidate : TokenData → Except ApiError TokenData)
    (request_user : User) (data : TokenData) :
    ((∃ tu, data.user = some tu ∧ tu ≠ request_user ∧
        request_user.has_perm "users.grant_token" = false) →
      TokenSerializer.validate superValidate request_user data = .error .permissionDenied) ∧
    ((∀ tu, data.user = some tu → tu = request_user ∨
        request_user.has_perm "users.grant_token" = true) →
      TokenSerializer.validate superValidate request_user data = superValidate data) := by
  constructor
  · rintro ⟨tu, htu, hne, hperm⟩
    unfold TokenSerializer.validate
    rw [htu]
    simp only []
    rw [if_pos ⟨hne, hperm⟩]
  · intro h
    unfold TokenSerializer.validate
    cases hdu : data.user with
    | none => rfl
    | some tu =>
      simp only []
      rcases h tu hdu with he | hp
      · rw [if_neg (fun hc => hc.1 he)]
      · rw [if_neg (fun hc => by rw [hp] at hc; exact absurd hc.2 (by decide))]

/-- C4 witness: the permission check on concrete users. -/
theorem TokenSerializer.validate_grant_token_witness :
    TokenSerializer.validate Except.ok wUserBob
      { user := some wUserAlice, key := "", write_enabled := true, description := "" } =
      .error .permissionDenied ∧
    TokenSerializer.validate Except.ok wUserBob
      { user := some wUserBob, key := "", write_enabled := true, description := "" } =
      Except.ok { user := some wUserBob, key := "", write_enabled := true, description := "" } :=
  ⟨(TokenSerializer.validate_grant_token Except.ok wUserBob
      { user := some wUserAlice, key := "", write_enabled := true, description := "" }).1
      ⟨wUserAlice, rfl, by decide, by decide⟩,
   (TokenSerializer.validate_grant_token Except.ok wUserBob
      { user := some wUserBob, key := "", write_enabled := true, description := "" }).2
      (fun tu h => Or.inl (Option.some.inj h).symm)⟩

/-- C5: TokenProvisionSerializer.validate raises AuthenticationFailed if and
only if authenticating the supplied username/password yields no user; on
success it returns the data with the username and password entries removed
and the user entry set to the authenticated user, every other entry
unchanged. -/
theorem TokenProvisionSerializer.validate_authenticates
    (authenticate : String → String → Option User) (data : DataDict)
    (un pw : String)
    (hga : dictGet data "username" = some (.str un))
    (hgp : dictGet data "password" = some (.str pw)) :
    (TokenProvisionSerializer.validate authenticate data = .error .authenticationFailed ↔
      authenticate un pw = none) ∧
    (∀ user, authenticate un pw = some user →
      ∃ d2, TokenProvisionSerializer.validate authenticate data = .ok d2 ∧
        dictGet d2 "username" = none ∧
        dictGet d2 "password" = none ∧
        dictGet d2 "user" = some (.user user) ∧
        (∀ k2, k2 ≠ "username" → k2 ≠ "password" → k2 ≠ "user" →
          dictGet d2 k2 = dictGet data k2)) := by
  have hpop1 : dictPop data "username" =
      some (.str un, data.filter fun kv => decide (kv.1 ≠ "username")) := by
    unfold dictPop
    rw [hga]
  have hg1p : dictGet (data.filter fun kv => decide (kv.1 ≠ "username")) "password" =
      some (.str pw) :=
    (dictGet_filter_ne data "password" "username" (by decide)).trans hgp
  have hpop2 : dictPop (data.filter fun kv => decide (kv.1 ≠ "username")) "password" =
      some (.str pw, (data.filter fun kv => decide (kv.1 ≠ "username")).filter
        fun kv => decide (kv.1 ≠ "password")) := by
    unfold dictPop
    rw [hg1p]
  have hval : TokenProvisionSerializer.validate authenticate data =
      (match authenticate un pw with
       | none => .error .authenticationFailed
       | some user => .ok (dictSet ((data.filter fun kv => decide (kv.1 ≠ "username")).filter
           fun kv => decide (kv.1 ≠ "password")) "user" (.user user))) := by
    unfold TokenProvisionSerializer.validate
    rw [hpop1]
    simp only []
    rw [hpop2]
  constructor
  · rw [hval]
    cases hauth : authenticate un pw with
    | none => simp
    | some u => simp
  · intro user hauth
    refine ⟨dictSet ((data.filter fun kv => decide (kv.1 ≠ "username")).filter
        fun kv => decide (kv.1 ≠ "password")) "user" (.user user), ?_, ?_, ?_, ?_, ?_⟩
    · rw [hval, hauth]
    · rw [dictGet_dictSet_ne _ "user" "username" _ (by decide),
        dictGet_filter_ne _ "username" "password" (by decide)]
      exact dictGet_filter_self data "username"
    · rw [dictGet_dictSet_ne _ "user" "password" _ (by decide)]
      exact dictGet_filter_self _ "password"
    · exact dictGet_dictSet_self _ "user" (.user user)
    · intro k2 h1 h2 h3
      rw [dictGet_dictSet_ne _ "user" k2 _ h3, dictGet_filter_ne _ k2 "password" h2,
        dictGet_filter_ne _ k2 "username" h1]

/-- C5 witness: provisioning with concrete credentials. -/
theorem TokenProvisionSerializer.validate_authenticates_witness :
    (TokenProvisionSerializer.validate wAuth wProvData = .error .authenticationFailed ↔
      wAuth "alice" "hunter2" = none) ∧
    (∀ user, wAuth "alice" "hunter2" = some user →
      ∃ d2, TokenProvisionSerializer.validate wAuth wProvData = .ok d2 ∧
        dictGet d2 "username" = none ∧
        dictGet d2 "password" = none ∧
        dictGet d2 "user" = some (.user user) ∧
        (∀ k2, k2 ≠ "username" → k2 ≠ "password" → k2 ≠ "user" →
          dictGet d2 k2 = dictGet wProvData k2)) :=
  TokenProvisionSerializer.validate_authenticates wAuth wProvData "alice" "hunter2"
    (by decide) (by decide)

/-- C6: CircuitBulkImportView.prep_related_object_data returns the given
related-object data with the circuit key set to the parent circuit and every
other key unchanged. -/
theorem CircuitBulkImportView.prep_related_object_data_spec
    (parent : Circuit) (data : DataDict) :
    dictGet (CircuitBulkImportView.prep_related_object_data parent data) "circuit" =
      some (.circuit parent) ∧
    ∀ k, k ≠ "circuit" →
      dictGet (CircuitBulkImportView.prep_related_object_data parent data) k =
        dictGet data k := by
  constructor
  · exact dictGet_dictSet_self data "circuit" (.circuit parent)
  · intro k hk
    exact dictGet_dictSet_ne data "circuit" k (.circuit parent) hk

/-- C6 witness: the parent circuit is attached on concrete import data. -/
theorem CircuitBulkImportView.prep_related_object_data_spec_witness :
    dictGet (CircuitBulkImportView.prep_related_object_data wCircuit
      [("term_side", .str "A"), ("site", .str "dc1")]) "circuit" =
      some (.circuit wCircuit) ∧
    ∀ k, k ≠ "circuit" →
      dictGet (CircuitBulkImportView.prep_related_object_data wCircuit
        [("term_side", .str "A"), ("site", .str "dc1")]) k =
        dictGet [("term_side", .str "A"), ("site", .str "dc1")] k :=
  CircuitBulkImportView.prep_related_object_data_spec wCircuit
    [("term_side", .str "A"), ("site", .str "dc1")]

/-- C10 counterexample: the key field declares allow_blank=True, so the
serializer accepts a supplied blank key even though its length is 0, not
40. -/
theorem token_key_blank_accepted :
    TokenSerializer.to_internal_value_key [] (some "") = .ok "" ∧
    ("" : String).length ≠ 40 := by
  exact ⟨rfl, by decide⟩

/-- Length of a generated key: two hexadecimal characters per random byte. -/
theorem generate_key_length (randomBytes : List Nat) :
    (Token.generate_key randomBytes).length = 2 * randomBytes.length := by
  unfold Token.generate_key
  show (randomBytes.flatMap fun b => [Token.hexDigit (b / 16), Token.hexDigit b]).length = _
  induction randomBytes with
  | nil => rfl
  | cons b t ih =>
    rw [List.flatMap_cons, List.length_append, ih]
    simp only [List.length_cons, List.length_nil]
    omega

/-- C10 amended: every key value the serializer accepts either has exactly
40 characters or is the blank key that allow_blank admits; and the key
generated when the input lacks a key entry consists of exactly 40
characters. -/
theorem token_key_forty_or_blank (randomBytes : List Nat) (keyInput : Option String) :
    (∀ k, TokenSerializer.to_internal_value_key randomBytes keyInput = .ok k →
      k.length = 40 ∨ k = "") ∧
    (randomBytes.length = 20 → (Token.generate_key randomBytes).length = 40) := by
  constructor
  · intro k hk
    have hrun : ∀ s, CharField.run_validation 40 40 true s = .ok k →
        k.length = 40 ∨ k = "" := by
      intro s hs
      unfold CharField.run_validation at hs
      by_cases h1 : pyStrip s = ""
      · rw [if_pos h1] at hs
        have hs2 : (Except.ok "" : Except ApiError String) = Except.ok k := hs
        right
        exact (Except.ok.inj hs2).symm
      · rw [if_neg h1] at hs
        by_cases h2 : (pyStrip s).length < 40
        · rw [if_pos h2] at hs
          exact Except.noConfusion hs
        · rw [if_neg h2] at hs
          by_cases h3 : 40 < (pyStrip s).length
          · rw [if_pos h3] at hs
            exact Except.noConfusion hs
          · rw [if_neg h3] at hs
            left
            rw [← (Except.ok.inj hs)]
            omega
    cases keyInput with
    | none => exact hrun _ hk
    | some s => exact hrun s hk
  · intro hlen
    rw [generate_key_length, hlen]

/-- C10 witness: a 20-byte random seed yields a 40-character generated key,
and a concrete 40-character supplied key is accepted with length 40. -/
theorem token_key_forty_or_blank_witness :
    (Token.generate_key (List.replicate 20 0)).length = 40 ∧
    ((String.mk (List.replicate 40 'a')).length = 40 ∨
      String.mk (List.replicate 40 'a') = "") :=
  ⟨(token_key_forty_or_blank (List.replicate 20 0) none).2 (by decide),
   (token_key_forty_or_blank [] (some (String.mk (List.replicate 40 'a')))).1
     (String.mk (List.replicate 40 'a')) rfl⟩

end NetBox
